import Mathlib

/-!
Verification of the page-result aggregation and document-assembly pipeline of
the PDF-to-Word converter (src/App.tsx, src/services/fileService.ts,
src/services/geminiService.ts), shallowly embedded in Lean 4.

Conventions of the embedding:
* JavaScript strings are modelled as Lean `String`/`List Char`; the per-line
  operations of `generateWord` work on `List Char`.
* `JSON.parse` is modelled by an executable recursive-descent parser
  `parseJsonStr` over the JSON grammar; JS number values are kept as their
  source lexeme (only their zero-ness matters for truthiness).
* The asynchronous per-page loop of `startConversion` is modelled as a pure
  fold that records the trace of inference calls, progress reports, the
  accumulated page results, the final data, whether the download emitter ran,
  and the terminal error message.
-/

/-- The set of whitespace characters removed by JavaScript `String.trim`
(WhiteSpace and LineTerminator code points; the common ones are modelled). -/
def isJsSpace (c : Char) : Bool :=
  c = ' ' || c = '\t' || c = '\n' || c = '\r' ||
  c = Char.ofNat 11 || c = Char.ofNat 12 || c = Char.ofNat 0xA0 ||
  c = Char.ofNat 0xFEFF || c = Char.ofNat 0x2028 || c = Char.ofNat 0x2029

/-- Model of JS `line.startsWith(pat)` via `List.isPrefixOf`. -/
def startsWithL (pat line : List Char) : Bool :=
  pat.isPrefixOf line

/-- Model of JS `line.replace(pat, '')` with a string pattern: remove the
first occurrence of `pat`, leave the string unchanged if there is none. -/
def replFirst (pat : List Char) : List Char → List Char
  | [] => []
  | c :: cs =>
    if pat.isPrefixOf (c :: cs) then (c :: cs).drop pat.length
    else c :: replFirst pat cs

/-- Model of JS `md.split('\n')`. -/
def splitLines : List Char → List (List Char)
  | [] => [[]]
  | c :: cs =>
    if c = '\n' then [] :: splitLines cs
    else
      match splitLines cs with
      | [] => [[c]]
      | l :: ls => (c :: l) :: ls

/-- The block-level elements produced by `generateWord` (docx paragraphs):
headings of levels 1-3, bullet items, plain paragraphs and blank spacer
paragraphs. -/
inductive Block where
  | heading (level : Nat) (text : String)
  | bullet (text : String)
  | para (text : String)
  | blank
deriving DecidableEq

/-- One iteration of the `lines.forEach` body of `generateWord`
(src/services/fileService.ts): classify `line` given the blocks `children`
emitted so far and append the resulting block. -/
def processLine (children : List Block) (line : List Char) : List Block :=
  if line.all isJsSpace && !children.isEmpty then
    children ++ [Block.blank]
  else if startsWithL ("# ".data) line then
    children ++ [Block.heading 1 (String.mk (replFirst ("# ".data) line))]
  else if startsWithL ("## ".data) line then
    children ++ [Block.heading 2 (String.mk (replFirst ("## ".data) line))]
  else if startsWithL ("### ".data) line then
    children ++ [Block.heading 3 (String.mk (replFirst ("### ".data) line))]
  else if startsWithL ("- ".data) line || startsWithL ("* ".data) line then
    children ++ [Block.bullet (String.mk (line.drop 2))]
  else
    children ++ [Block.para (String.mk line)]

/-- The full `lines.forEach` loop of `generateWord`: split on newlines and
fold the classifier over the lines. -/
def parseBlocks (md : String) : List Block :=
  (splitLines md.data).foldl processLine []

/-- The placeholder paragraph text of `generateWord`'s defensive fallback. -/
def placeholderText : String := "Document converted by Gemini PDF Pro"

/-- Block sequence handed by `generateWord` to the docx builder: the parsed
blocks, or the placeholder paragraph if no block was produced
(`children.length > 0 ? children : ...`). -/
def generateWordBlocks (md : String) : List Block :=
  let children := parseBlocks md
  if children.isEmpty then [Block.para placeholderText] else children

/-- The literal page separator of `startConversion`
(`pageResults.join('\n\n--- PAGE BREAK ---\n\n')`). -/
def pageBreakSep : String := "\n\n--- PAGE BREAK ---\n\n"

/-- Model of JS `Array.prototype.join(sep)`: the first element, then a fold
appending `sep ++ x` for each later element. -/
def jsJoin (sep : String) : List String → String
  | [] => ""
  | a :: rest => rest.foldl (fun acc x => acc ++ sep ++ x) a

/-- The concatenated markdown built by `startConversion` for the WORD target. -/
def fullMarkdown (pageResults : List String) : String :=
  jsJoin pageBreakSep pageResults

/-- The Document Assembly Strategy end to end: join the page results and run
`generateWord`'s classifier on the result. -/
def assembleDocument (pageResults : List String) : List Block :=
  generateWordBlocks (fullMarkdown pageResults)

/-- Spec-side join, following the claim's words: the results joined in page
order with the literal separator between consecutive pages only (no separator
before the first or after the last). Compared with `fullMarkdown`. -/
def joinedSpec : List String → String
  | [] => ""
  | [a] => a
  | a :: b :: rest => a ++ pageBreakSep ++ joinedSpec (b :: rest)

/-- JSON values as produced by `JSON.parse`. A number keeps its source
lexeme; only whether its mathematical value is zero matters downstream
(JS truthiness). -/
inductive JsonValue where
  | null
  | bool (b : Bool)
  | num (lexeme : String)
  | str (s : String)
  | arr (elems : List JsonValue)
  | obj (fields : List (String × JsonValue))

/-- The opening brace character. -/
def lbrace : Char := Char.ofNat 123

/-- The closing brace character. -/
def rbrace : Char := Char.ofNat 125

/-- JSON insignificant whitespace (space, tab, line feed, carriage return). -/
def isJsonWs (c : Char) : Bool :=
  c = ' ' || c = '\t' || c = '\n' || c = '\r'

/-- Drop leading JSON whitespace. -/
def skipWs : List Char → List Char
  | [] => []
  | c :: cs => if isJsonWs c then skipWs cs else c :: cs

/-- Longest digit run at the front of the input. -/
def parseDigits : List Char → List Char × List Char
  | [] => ([], [])
  | c :: cs =>
    if c.isDigit then
      let p := parseDigits cs
      (c :: p.1, p.2)
    else ([], c :: cs)

/-- JSON integer part: `0` or a nonzero digit followed by digits. -/
def parseIntPart (cs : List Char) : Option (List Char × List Char) :=
  match cs with
  | [] => none
  | c :: rest =>
    if c = '0' then some ([c], rest)
    else if c.isDigit then
      let p := parseDigits rest
      some (c :: p.1, p.2)
    else none

/-- JSON optional fraction part: `.` followed by at least one digit. -/
def parseFrac (cs : List Char) : Option (List Char × List Char) :=
  match cs with
  | '.' :: rest =>
    let p := parseDigits rest
    if p.1.isEmpty then none else some ('.' :: p.1, p.2)
  | _ => some ([], cs)

/-- JSON optional exponent part: `e`/`E`, optional sign, at least one digit. -/
def parseExpPart (cs : List Char) : Option (List Char × List Char) :=
  match cs with
  | [] => some ([], [])
  | c :: rest =>
    if c = 'e' || c = 'E' then
      match rest with
      | [] => none
      | s :: rest2 =>
        if s = '+' || s = '-' then
          let p := parseDigits rest2
          if p.1.isEmpty then none else some (c :: s :: p.1, p.2)
        else
          let p := parseDigits rest
          if p.1.isEmpty then none else some (c :: p.1, p.2)
    else some ([], c :: rest)

/-- JSON number: `-? int frac? exp?`; returns the lexeme. -/
def parseNumber (cs : List Char) : Option (String × List Char) :=
  let sgn : List Char × List Char :=
    match cs with
    | '-' :: rest => (['-'], rest)
    | _ => ([], cs)
  match parseIntPart sgn.2 with
  | none => none
  | some (ip, cs2) =>
    match parseFrac cs2 with
    | none => none
    | some (fp, cs3) =>
      match parseExpPart cs3 with
      | none => none
      | some (ep, cs4) => some (String.mk (sgn.1 ++ ip ++ fp ++ ep), cs4)

/-- Value of a hexadecimal digit. -/
def hexVal (c : Char) : Option Nat :=
  if '0' ≤ c ∧ c ≤ '9' then some (c.toNat - '0'.toNat)
  else if 'a' ≤ c ∧ c ≤ 'f' then some (c.toNat - 'a'.toNat + 10)
  else if 'A' ≤ c ∧ c ≤ 'F' then some (c.toNat - 'A'.toNat + 10)
  else none

/-- Single-character JSON escapes. -/
def escChar : Char → Option Char
  | '"' => some '"'
  | '\\' => some '\\'
  | '/' => some '/'
  | 'b' => some (Char.ofNat 8)
  | 'f' => some (Char.ofNat 12)
  | 'n' => some '\n'
  | 'r' => some '\r'
  | 't' => some '\t'
  | _ => none

/-- JSON string body after the opening quote: content up to the closing
quote, processing escapes; raw control characters are rejected. -/
def parseStringBody : List Char → Option (List Char × List Char)
  | [] => none
  | c :: cs =>
    if c = '"' then some ([], cs)
    else if c = '\\' then
      match cs with
      | [] => none
      | e :: cs2 =>
        if e = 'u' then
          match cs2 with
          | h1 :: h2 :: h3 :: h4 :: cs3 =>
            match hexVal h1, hexVal h2, hexVal h3, hexVal h4 with
            | some a, some b, some x, some d =>
              match parseStringBody cs3 with
              | some (content, rest) =>
                some (Char.ofNat (4096 * a + 256 * b + 16 * x + d) :: content, rest)
              | none => none
            | _, _, _, _ => none
          | _ => none
        else
          match escChar e with
          | some ec =>
            match parseStringBody cs2 with
            | some (content, rest) => some (ec :: content, rest)
            | none => none
          | none => none
    else if c.toNat < 32 then none
    else
      match parseStringBody cs with
      | some (content, rest) => some (c :: content, rest)
      | none => none


/-- Which grammar production `parseF` is parsing: a value, the members of
an object (after the opening brace), or the elements of an array (after the
opening bracket).  Members produce an `obj`, elements an `arr`. -/
inductive PMode where
  | value
  | members
  | elems

/-- Fuel-indexed recursive-descent parser for JSON, structurally recursive
on the fuel (so that the kernel can evaluate it); `parseJsonStr` supplies
enough fuel for any input. -/
def parseF : Nat → PMode → List Char → Option (JsonValue × List Char)
  | 0, _, _ => none
  | Nat.succ fuel, PMode.value, cs =>
    match skipWs cs with
    | [] => none
    | c :: rest =>
      if c = '"' then
        match parseStringBody rest with
        | some (content, rest2) => some (.str (String.mk content), rest2)
        | none => none
      else if c = lbrace then
        match skipWs rest with
        | [] => none
        | d :: rest2 =>
          if d = rbrace then some (.obj [], rest2)
          else
            match parseF fuel PMode.members (d :: rest2) with
            | some (v, rest3) => some (v, rest3)
            | none => none
      else if c = '[' then
        match skipWs rest with
        | ']' :: rest2 => some (.arr [], rest2)
        | rest2 =>
          match parseF fuel PMode.elems rest2 with
          | some (v, rest3) => some (v, rest3)
          | none => none
      else if c = 't' then
        match rest with
        | 'r' :: 'u' :: 'e' :: rest2 => some (.bool true, rest2)
        | _ => none
      else if c = 'f' then
        match rest with
        | 'a' :: 'l' :: 's' :: 'e' :: rest2 => some (.bool false, rest2)
        | _ => none
      else if c = 'n' then
        match rest with
        | 'u' :: 'l' :: 'l' :: rest2 => some (.null, rest2)
        | _ => none
      else
        match parseNumber (c :: rest) with
        | some (lex, rest2) => some (.num lex, rest2)
        | none => none
  | Nat.succ fuel, PMode.members, cs =>
    match skipWs cs with
    | '"' :: rest =>
      match parseStringBody rest with
      | some (key, rest2) =>
        match skipWs rest2 with
        | ':' :: rest3 =>
          match parseF fuel PMode.value rest3 with
          | some (v, rest4) =>
            match skipWs rest4 with
            | ',' :: rest5 =>
              match parseF fuel PMode.members rest5 with
              | some (JsonValue.obj fields, rest6) =>
                some (.obj ((String.mk key, v) :: fields), rest6)
              | _ => none
            | d :: rest5 =>
              if d = rbrace then some (.obj [(String.mk key, v)], rest5) else none
            | [] => none
          | none => none
        | _ => none
      | none => none
    | _ => none
  | Nat.succ fuel, PMode.elems, cs =>
    match parseF fuel PMode.value cs with
    | some (v, rest) =>
      match skipWs rest with
      | ',' :: rest2 =>
        match parseF fuel PMode.elems rest2 with
        | some (JsonValue.arr vs, rest3) => some (.arr (v :: vs), rest3)
        | _ => none
      | ']' :: rest2 => some (.arr [v], rest2)
      | _ => none
    | none => none

/-- Model of `JSON.parse`: parse one value, allow trailing whitespace,
reject anything else (`none` models the thrown `SyntaxError`). -/
def parseJsonStr (s : String) : Option JsonValue :=
  match parseF (2 * s.data.length + 2) PMode.value s.data with
  | some (v, rest) => if (skipWs rest).isEmpty then some v else none
  | none => none

/-- Last binding of a key in an object's field list (`JSON.parse` keeps the
last of duplicate keys). -/
def lookupLast (fields : List (String × JsonValue)) (k : String) : Option JsonValue :=
  fields.foldl (fun acc p => if p.1 = k then some p.2 else acc) none

/-- JS member access `v.key` on a `JSON.parse` result: throws a `TypeError`
on `null` (modelled by `Except.error ()`), yields `undefined` (modelled by
`Except.ok none`) on primitives, arrays and missing keys. -/
def jsMember (v : JsonValue) (key : String) : Except Unit (Option JsonValue) :=
  match v with
  | .null => .error ()
  | .obj fields => .ok (lookupLast fields key)
  | _ => .ok none

/-- Whether a JSON number lexeme denotes the value zero: every mantissa
digit (before any exponent marker) is `0`. -/
def mantissaZero (lexeme : String) : Bool :=
  ((lexeme.data.takeWhile (fun c => c != 'e' && c != 'E')).filter
    (fun c => c.isDigit)).all (fun c => c == '0')

/-- JS truthiness of a `JSON.parse` value: `null`, `false`, `0` and `""` are
falsy; arrays and objects (even empty ones) are truthy. -/
def jsFalsy : JsonValue → Bool
  | .null => true
  | .bool b => !b
  | .num lexeme => mantissaZero lexeme
  | .str s => s == ""
  | .arr _ => false
  | .obj _ => false

/-- The `flatMap` callback of `startConversion`'s EXCEL branch:
`try { return JSON.parse(res).tables || []; } catch { return []; }`.
A thrown parse error or `TypeError` yields `[]`; a falsy `tables` value is
replaced by `[]`; an array is spread by `flatMap`; any other truthy value is
kept by `flatMap` as a single element. -/
def pageTables (res : String) : List JsonValue :=
  match parseJsonStr res with
  | none => []
  | some v =>
    match jsMember v "tables" with
    | .error _ => []
    | .ok none => []
    | .ok (some t) =>
      if jsFalsy t then []
      else
        match t with
        | .arr xs => xs
        | _ => [t]

/-- `pageResults.flatMap(...)` of the EXCEL branch: concatenation of the
per-page contributions in page order. -/
def assembleTables : List String → List JsonValue
  | [] => []
  | r :: rest => pageTables r ++ assembleTables rest

/-- The conversion target (`ConversionTarget` in src/types.ts). -/
inductive ConversionTarget where
  | WORD
  | EXCEL
deriving DecidableEq

/-- A document page handed to the pipeline (`DocumentPage` in src/types.ts). -/
structure Page where
  index : Nat
  dataUrl : String
deriving DecidableEq

/-- The `finalData` value of `startConversion`: tables for EXCEL, the joined
markdown for WORD. -/
inductive FinalData where
  | excel (tables : List JsonValue)
  | word (markdown : String)

/-- Assembly strategy selection of `startConversion`. -/
def assemble : ConversionTarget → List String → FinalData
  | .EXCEL, rs => .excel (assembleTables rs)
  | .WORD, rs => .word (fullMarkdown rs)

/-- Outcome of the per-page loop: inference call positions, progress values
reported inside the loop, and either the accumulated page results or the
first error. -/
structure LoopOut where
  calls : List Nat
  reports : List Nat
  outcome : Except String (List String)

/-- Whether an inference call succeeded. -/
def isOkE : Except String String → Bool
  | .ok _ => true
  | .error _ => false

/-- The result of a successful inference call (dummy `""` for errors). -/
def getOk : Except String String → String
  | .ok r => r
  | .error _ => ""

/-- The `for (let i = 0; ...)` loop of `startConversion`: report progress
`5 + Math.floor((i / N) * 85)`, await the inference client on page `i`, stop
at the first error.  `infer` is the Page Inference Client oracle, given the
loop index and the page. -/
def loopAux (infer : Nat → Page → Except String String) (N : Nat) :
    Nat → List Page → LoopOut
  | _, [] => ⟨[], [], .ok []⟩
  | i, p :: rest =>
    let prog := 5 + 85 * i / N
    match infer i p with
    | .error e => ⟨[i], [prog], .error e⟩
    | .ok r =>
      let t := loopAux infer N (i + 1) rest
      ⟨i :: t.calls, prog :: t.reports, t.outcome.map (fun rs => r :: rs)⟩

/-- Observable trace of one `startConversion` run. -/
structure Trace where
  calls : List Nat
  reports : List Nat
  pageResults : Option (List String)
  result : Option FinalData
  downloaded : Bool
  errMsg : Option String

/-- The fallback message of the catch block
(`err.message || 'Something went wrong during conversion.'`). -/
def defaultErrMsg : String := "Something went wrong during conversion."

/-- The `startConversion` handler of src/App.tsx: return immediately when
there are no pages; otherwise report 5%, run the sequential per-page loop,
and on success report 95%, assemble by target, store the result, trigger the
download and report 100%; on the first inference failure stop, store no
result, trigger no download and surface the error message (progress is reset
to 0 by the error status). -/
def startConversion (infer : Nat → Page → Except String String)
    (target : ConversionTarget) (pages : List Page) : Trace :=
  if pages.isEmpty then
    ⟨[], [], none, none, false, none⟩
  else
    let out := loopAux infer pages.length 0 pages
    match out.outcome with
    | .error e =>
      ⟨out.calls, 5 :: out.reports ++ [0], none, none, false,
        some (if e = "" then defaultErrMsg else e)⟩
    | .ok rs =>
      ⟨out.calls, 5 :: out.reports ++ [95, 100], some rs,
        some (assemble target rs), true, none⟩

/-- Page results mapped with their absolute loop index, mirroring the order
in which `loopAux` accumulates results. -/
def mapWithIndex (f : Nat → Page → String) : Nat → List Page → List String
  | _, [] => []
  | i, p :: rest => f i p :: mapWithIndex f (i + 1) rest

/-! ### Helper lemmas -/

theorem isPrefixOf_append_self : ∀ (pat r : List Char), (pat.isPrefixOf (pat ++ r)) = true
  | [], _ => by simp [List.isPrefixOf]
  | c :: cs, r => by
    simp only [List.cons_append, List.isPrefixOf, beq_self_eq_true, Bool.true_and]
    exact isPrefixOf_append_self cs r

theorem replFirst_append_self (pat r : List Char) (h : pat ≠ []) :
    replFirst pat (pat ++ r) = r := by
  cases pat with
  | nil => exact absurd rfl h
  | cons c cs =>
    have hpre := isPrefixOf_append_self (c :: cs) r
    simp only [List.cons_append] at hpre ⊢
    rw [replFirst, if_pos (by simpa using hpre)]
    have := List.drop_left (c :: cs) r
    simpa using this

theorem blank_not_starts (c : Char) (cs line : List Char)
    (hall : line.all isJsSpace = true) (hc : isJsSpace c = false) :
    ((c :: cs).isPrefixOf line) = false := by
  cases line with
  | nil => rfl
  | cons x xs =>
    simp only [List.all_cons, Bool.and_eq_true] at hall
    simp only [List.isPrefixOf]
    have hne : (c == x) = false := by
      by_cases h : c = x
      · subst h; rw [hall.1] at hc; cases hc
      · simpa using h
    rw [hne, Bool.false_and]

theorem processLine_length (children : List Block) (line : List Char) :
    (processLine children line).length = children.length + 1 := by
  unfold processLine
  split
  · simp
  · split
    · simp
    · split
      · simp
      · split
        · simp
        · split <;> simp

theorem foldl_processLine_length (lines : List (List Char)) :
    ∀ acc : List Block, (lines.foldl processLine acc).length = acc.length + lines.length := by
  induction lines with
  | nil => intro acc; simp
  | cons l ls ih =>
    intro acc
    simp only [List.foldl_cons, ih, processLine_length, List.length_cons]
    omega

theorem splitLines_ne_nil (cs : List Char) : splitLines cs ≠ [] := by
  cases cs with
  | nil => simp [splitLines]
  | cons c rest =>
    rw [splitLines]
    split
    · simp
    · split <;> simp

theorem jsJoin_foldl_shift (sep : String) :
    ∀ (rest : List String) (p q : String),
      rest.foldl (fun acc x => acc ++ sep ++ x) (p ++ q) =
        p ++ rest.foldl (fun acc x => acc ++ sep ++ x) q := by
  intro rest
  induction rest with
  | nil => intro p q; rfl
  | cons x r ih =>
    intro p q
    simp only [List.foldl_cons]
    rw [show p ++ q ++ sep ++ x = p ++ (q ++ sep ++ x) by
      simp [String.append_assoc]]
    exact ih p (q ++ sep ++ x)

theorem jsJoin_cons_cons (sep a b : String) (rest : List String) :
    jsJoin sep (a :: b :: rest) = a ++ sep ++ jsJoin sep (b :: rest) := by
  show (b :: rest).foldl (fun acc x => acc ++ sep ++ x) a = _
  simp only [List.foldl_cons]
  rw [show a ++ sep ++ b = (a ++ sep) ++ b by rfl, jsJoin_foldl_shift sep rest (a ++ sep) b]
  simp [jsJoin, String.append_assoc]

/-- Claim C4: the combined WORD markdown equals the page results joined with
the literal separator between consecutive pages only (no separator before
the first or after the last), and the separator line
`--- PAGE BREAK ---` is not special to the line classifier: whatever blocks
were already emitted, it is classified as a `Paragraph` holding the line. -/
theorem pageBreakJoinAndClassify :
    (∀ pageResults : List String, fullMarkdown pageResults = joinedSpec pageResults) ∧
    (∀ children : List Block,
      processLine children ("--- PAGE BREAK ---".data) =
        children ++ [Block.para "--- PAGE BREAK ---"]) := by
  constructor
  · intro pageResults
    induction pageResults with
    | nil => rfl
    | cons a rest ih =>
      cases rest with
      | nil => rfl
      | cons b rs =>
        rw [show fullMarkdown (a :: b :: rs) = jsJoin pageBreakSep (a :: b :: rs) from rfl,
          jsJoin_cons_cons, joinedSpec]
        exact congrArg (fun s => a ++ pageBreakSep ++ s) ih
  · intro children
    have h1 : ("--- PAGE BREAK ---".data.all isJsSpace) = false := by decide
    have h2 : startsWithL ("# ".data) ("--- PAGE BREAK ---".data) = false := by decide
    have h3 : startsWithL ("## ".data) ("--- PAGE BREAK ---".data) = false := by decide
    have h4 : startsWithL ("### ".data) ("--- PAGE BREAK ---".data) = false := by decide
    have h5 : startsWithL ("- ".data) ("--- PAGE BREAK ---".data) = false := by decide
    have h6 : startsWithL ("* ".data) ("--- PAGE BREAK ---".data) = false := by decide
    simp [processLine, h1, h2, h3, h4, h5, h6]

/-- Claim C5: a line with the literal prefix `"# "`, `"## "` or `"### "` at
position 0 becomes a Heading of level 1, 2 or 3 with exactly that one prefix
removed; a line with `"- "` or `"* "` at position 0 becomes a BulletItem with
the two-character prefix removed; a non-blank line matching none of the five
prefixes at position 0 (in particular any indented heading or bullet)
becomes a Paragraph holding the line verbatim. -/
theorem lineClassification :
    (∀ (children : List Block) (r : List Char),
      processLine children ('#' :: ' ' :: r) =
        children ++ [Block.heading 1 (String.mk r)]) ∧
    (∀ (children : List Block) (r : List Char),
      processLine children ('#' :: '#' :: ' ' :: r) =
        children ++ [Block.heading 2 (String.mk r)]) ∧
    (∀ (children : List Block) (r : List Char),
      processLine children ('#' :: '#' :: '#' :: ' ' :: r) =
        children ++ [Block.heading 3 (String.mk r)]) ∧
    (∀ (children : List Block) (r : List Char),
      processLine children ('-' :: ' ' :: r) =
        children ++ [Block.bullet (String.mk r)]) ∧
    (∀ (children : List Block) (r : List Char),
      processLine children ('*' :: ' ' :: r) =
        children ++ [Block.bullet (String.mk r)]) ∧
    (∀ (children : List Block) (line : List Char),
      startsWithL ("# ".data) line = false →
      startsWithL ("## ".data) line = false →
      startsWithL ("### ".data) line = false →
      startsWithL ("- ".data) line = false →
      startsWithL ("* ".data) line = false →
      line.all isJsSpace = false →
      processLine children line = children ++ [Block.para (String.mk line)]) := by
  have hsp1 : isJsSpace '#' = false := by decide
  have hsp2 : isJsSpace '-' = false := by decide
  have hsp3 : isJsSpace '*' = false := by decide
  have hbeq1 : (' ' == '#') = false := by decide
  have hbeq2 : ('#' == '-') = false := by decide
  have hbeq3 : ('#' == '*') = false := by decide
  have hbeq6 : ('-' == '*') = false := by decide
  refine ⟨?_, ?_, ?_, ?_, ?_, ?_⟩
  · intro children r
    have g1 : (('#' :: ' ' :: r).all isJsSpace) = false := by
      rw [List.all_cons, hsp1, Bool.false_and]
    have g2 : startsWithL ("# ".data) ('#' :: ' ' :: r) = true :=
      isPrefixOf_append_self ['#', ' '] r
    have g3 : replFirst ("# ".data) ('#' :: ' ' :: r) = r :=
      replFirst_append_self ['#', ' '] r (by decide)
    simp [processLine, g1, g2, g3]
  · intro children r
    have g1 : (('#' :: '#' :: ' ' :: r).all isJsSpace) = false := by
      rw [List.all_cons, hsp1, Bool.false_and]
    have g2a : startsWithL ("# ".data) ('#' :: '#' :: ' ' :: r) = false := by
      simp [startsWithL, List.isPrefixOf, hbeq1]
    have g2b : startsWithL ("## ".data) ('#' :: '#' :: ' ' :: r) = true :=
      isPrefixOf_append_self ['#', '#', ' '] r
    have g3 : replFirst ("## ".data) ('#' :: '#' :: ' ' :: r) = r :=
      replFirst_append_self ['#', '#', ' '] r (by decide)
    simp [processLine, g1, g2a, g2b, g3]
  · intro children r
    have g1 : (('#' :: '#' :: '#' :: ' ' :: r).all isJsSpace) = false := by
      rw [List.all_cons, hsp1, Bool.false_and]
    have g2a : startsWithL ("# ".data) ('#' :: '#' :: '#' :: ' ' :: r) = false := by
      simp [startsWithL, List.isPrefixOf, hbeq1]
    have g2b : startsWithL ("## ".data) ('#' :: '#' :: '#' :: ' ' :: r) = false := by
      simp [startsWithL, List.isPrefixOf, hbeq1]
    have g2c : startsWithL ("### ".data) ('#' :: '#' :: '#' :: ' ' :: r) = true :=
      isPrefixOf_append_self ['#', '#', '#', ' '] r
    have g3 : replFirst ("### ".data) ('#' :: '#' :: '#' :: ' ' :: r) = r :=
      replFirst_append_self ['#', '#', '#', ' '] r (by decide)
    simp [processLine, g1, g2a, g2b, g2c, g3]
  · intro children r
    have g1 : (('-' :: ' ' :: r).all isJsSpace) = false := by
      rw [List.all_cons, hsp2, Bool.false_and]
    have g2a : startsWithL ("# ".data) ('-' :: ' ' :: r) = false := by
      simp [startsWithL, List.isPrefixOf]
    have g2b : startsWithL ("## ".data) ('-' :: ' ' :: r) = false := by
      simp [startsWithL, List.isPrefixOf]
    have g2c : startsWithL ("### ".data) ('-' :: ' ' :: r) = false := by
      simp [startsWithL, List.isPrefixOf]
    have g2d : startsWithL ("- ".data) ('-' :: ' ' :: r) = true :=
      isPrefixOf_append_self ['-', ' '] r
    simp [processLine, g1, g2a, g2b, g2c, g2d]
  · intro children r
    have g1 : (('*' :: ' ' :: r).all isJsSpace) = false := by
      rw [List.all_cons, hsp3, Bool.false_and]
    have g2a : startsWithL ("# ".data) ('*' :: ' ' :: r) = false := by
      simp [startsWithL, List.isPrefixOf]
    have g2b : startsWithL ("## ".data) ('*' :: ' ' :: r) = false := by
      simp [startsWithL, List.isPrefixOf]
    have g2c : startsWithL ("### ".data) ('*' :: ' ' :: r) = false := by
      simp [startsWithL, List.isPrefixOf]
    have g2d : startsWithL ("- ".data) ('*' :: ' ' :: r) = false := by
      simp [startsWithL, List.isPrefixOf, hbeq6]
    have g2e : startsWithL ("* ".data) ('*' :: ' ' :: r) = true :=
      isPrefixOf_append_self ['*', ' '] r
    simp [processLine, g1, g2a, g2b, g2c, g2d, g2e]
  · intro children line h1 h2 h3 h4 h5 h6
    simp [processLine, h1, h2, h3, h4, h5, h6]

/-- Claim C5 witness: an indented heading line is not recognized and becomes
a verbatim Paragraph, and each exact prefix is classified as claimed. -/
theorem lineClassificationWitness :
    processLine [] ("   # Indented".data) = [Block.para "   # Indented"] ∧
    processLine [] ("# Title".data) = [Block.heading 1 (String.mk "Title".data)] := by
  constructor
  · exact lineClassification.2.2.2.2.2 [] ("   # Indented".data)
      (by decide) (by decide) (by decide) (by decide) (by decide) (by decide)
  · exact lineClassification.1 [] ("Title".data)

/-- Claim C6 counterexample: a leading blank line is NOT dropped.  On the
markdown `"\nHello"` the first (empty, leading) line produces a Paragraph
block with empty text, so the block sequence has two elements, not the one
element the claim predicts. -/
theorem blankLineLeadingCex :
    parseBlocks "\nHello" = [Block.para "", Block.para "Hello"] ∧
    parseBlocks "\nHello" ≠ [Block.para "Hello"] := by
  constructor
  · rfl
  · intro h
    simp [show parseBlocks "\nHello" = [Block.para "", Block.para "Hello"] from rfl] at h

theorem blank_all_guards_false (line : List Char) (hall : line.all isJsSpace = true) :
    startsWithL ("# ".data) line = false ∧
    startsWithL ("## ".data) line = false ∧
    startsWithL ("### ".data) line = false ∧
    startsWithL ("- ".data) line = false ∧
    startsWithL ("* ".data) line = false := by
  refine ⟨?_, ?_, ?_, ?_, ?_⟩ <;>
    exact blank_not_starts _ _ line hall (by decide)

/-- Claim C6 amended: a blank (empty or whitespace-only) line produces
exactly one Blank block when at least one block has already been emitted —
consecutive blank lines each produce their own Blank, with no coalescing —
but a blank line before any block has been emitted is NOT dropped: it
produces a Paragraph holding the line verbatim. -/
theorem blankLineHandling :
    (∀ (children : List Block) (line : List Char),
      line.all isJsSpace = true → children ≠ [] →
      processLine children line = children ++ [Block.blank]) ∧
    (∀ line : List Char,
      line.all isJsSpace = true →
      processLine [] line = [Block.para (String.mk line)]) ∧
    (∀ (children : List Block) (l1 l2 : List Char),
      l1.all isJsSpace = true → l2.all isJsSpace = true → children ≠ [] →
      [l1, l2].foldl processLine children = children ++ [Block.blank, Block.blank]) := by
  have hblank : ∀ (children : List Block) (line : List Char),
      line.all isJsSpace = true → children ≠ [] →
      processLine children line = children ++ [Block.blank] := by
    intro children line hall hne
    have hemp : children.isEmpty = false := by
      cases children with
      | nil => exact absurd rfl hne
      | cons a l => rfl
    simp [processLine, hall, hemp]
  refine ⟨hblank, ?_, ?_⟩
  · intro line hall
    obtain ⟨g1, g2, g3, g4, g5⟩ := blank_all_guards_false line hall
    simp [processLine, hall, g1, g2, g3, g4, g5]
  · intro children l1 l2 h1 h2 hne
    rw [List.foldl_cons, List.foldl_cons, List.foldl_nil, hblank children l1 h1 hne,
      hblank (children ++ [Block.blank]) l2 h2 (by simp)]
    simp

/-- Claim C6 witness: a run of two whitespace-only lines after an emitted
paragraph yields two separate Blank blocks, and an empty first line yields a
Paragraph with empty text. -/
theorem blankLineHandlingWitness :
    [" ".data, "\t".data].foldl processLine [Block.para "x"] =
      [Block.para "x", Block.blank, Block.blank] ∧
    processLine [] ("".data) = [Block.para (String.mk "".data)] := by
  constructor
  · exact blankLineHandling.2.2 [Block.para "x"] (" ".data) ("\t".data)
      (by decide) (by decide) (by simp)
  · exact blankLineHandling.2.1 ("".data) (by decide)

/-- Claim C9 counterexample: Document Assembly of an empty page-result
sequence yields one Paragraph with EMPTY text — the single empty line of the
empty concatenation — not the placeholder-text fallback Paragraph the claim
describes. -/
theorem emptyDocCex :
    assembleDocument [] = [Block.para ""] ∧
    Block.para "" ≠ Block.para placeholderText := by
  constructor
  · rfl
  · decide

/-- Claim C9 amended: `assembleDocument []` yields a single-element block
sequence containing one Paragraph with empty text (so the output artifact is
indeed never structurally empty), produced by the ordinary line classifier;
the defensive placeholder fallback branch is not taken. -/
theorem emptyDocAmended :
    assembleDocument [] = [Block.para ""] ∧
    parseBlocks "" ≠ [] ∧
    generateWordBlocks "" = parseBlocks "" := by
  refine ⟨rfl, ?_, rfl⟩
  intro h
  simp [show parseBlocks "" = [Block.para ""] from rfl] at h

/-- Claim C10: the document generator emits exactly one block per line of
the newline-split input — `processLine` appends exactly one block whatever
the line is — so the parsed block sequence is never empty for any input
string and the placeholder fallback branch (`children.length === 0`) is
unreachable: `generateWordBlocks` always returns the parsed blocks. -/
theorem oneBlockPerLine (md : String) :
    (∀ (children : List Block) (line : List Char),
      (processLine children line).length = children.length + 1) ∧
    (parseBlocks md).length = (splitLines md.data).length ∧
    parseBlocks md ≠ [] ∧
    generateWordBlocks md = parseBlocks md := by
  have hlen : (parseBlocks md).length = (splitLines md.data).length := by
    rw [parseBlocks, foldl_processLine_length]
    simp
  have hne : parseBlocks md ≠ [] := by
    intro h
    have := splitLines_ne_nil md.data
    rw [h] at hlen
    cases hsplit : splitLines md.data with
    | nil => exact this hsplit
    | cons l ls => rw [hsplit] at hlen; simp at hlen
  refine ⟨processLine_length, hlen, hne, ?_⟩
  have hemp : (parseBlocks md).isEmpty = false := by
    cases hp : parseBlocks md with
    | nil => exact absurd hp hne
    | cons a l => rfl
  simp [generateWordBlocks, hemp]

/-- Claim C3 counterexample: the code performs no shape validation.  The
page result `{"tables":true}` parses fine but its `tables` field does not
match the `Table[]` shape; the claim says such a page contributes zero
tables, yet the code's `flatMap` keeps the truthy non-array value as one
element, so the assembled output is nonempty. -/
theorem tableAssemblyShapeCex :
    assembleTables ["\x7b\"tables\":true\x7d"] = [JsonValue.bool true] ∧
    assembleTables ["\x7b\"tables\":true\x7d"] ≠ [] := by
  constructor
  · rfl
  · intro h
    rw [show assembleTables ["\x7b\"tables\":true\x7d"] = [JsonValue.bool true] from rfl] at h
    cases h

/-- Claim C3 amended: each page result is parsed as JSON; a result whose
parse throws, or whose parsed value is `null` (member access throws), or
whose `tables` field is absent or falsy, contributes zero tables while the
rest of the pages are still assembled; a `tables` field that is an array
contributes exactly its elements (with no per-table shape validation); the
output is the concatenation of the per-page contributions in page order; and
on the spec's concrete example the output is exactly the one table
`{headers:["a"], rows:[["1"]]}`. -/
theorem tableAssembly :
    (∀ res : String, parseJsonStr res = none → pageTables res = []) ∧
    (∀ res : String, parseJsonStr res = some JsonValue.null → pageTables res = []) ∧
    (∀ (res : String) (v : JsonValue),
      parseJsonStr res = some v → jsMember v "tables" = Except.ok none →
      pageTables res = []) ∧
    (∀ (res : String) (v t : JsonValue),
      parseJsonStr res = some v → jsMember v "tables" = Except.ok (some t) →
      jsFalsy t = true → pageTables res = []) ∧
    (∀ (res : String) (v : JsonValue) (xs : List JsonValue),
      parseJsonStr res = some v → jsMember v "tables" = Except.ok (some (JsonValue.arr xs)) →
      pageTables res = xs) ∧
    (∀ (a : String) (rest : List String),
      assembleTables (a :: rest) = pageTables a ++ assembleTables rest) ∧
    assembleTables
        ["\x7b\"tables\":[\x7b\"headers\":[\"a\"],\"rows\":[[\"1\"]]\x7d]\x7d",
         "not json",
         "\x7b\"tables\":[]\x7d"] =
      [JsonValue.obj
        [("headers", JsonValue.arr [JsonValue.str "a"]),
         ("rows", JsonValue.arr [JsonValue.arr [JsonValue.str "1"]])]] := by
  refine ⟨?_, ?_, ?_, ?_, ?_, ?_, ?_⟩
  · intro res h
    simp [pageTables, h]
  · intro res h
    simp [pageTables, h, jsMember]
  · intro res v h1 h2
    simp [pageTables, h1, h2]
  · intro res v t h1 h2 h3
    simp [pageTables, h1, h2, h3]
  · intro res v xs h1 h2
    simp [pageTables, h1, h2, jsFalsy]
  · intro a rest
    rfl
  · rfl

/-- Claim C3 witness: the amended characterization evaluated on concrete
page results — a parse failure and a missing `tables` field both contribute
zero tables, and an array `tables` field contributes its elements. -/
theorem tableAssemblyWitness :
    pageTables "not json" = [] ∧
    pageTables "\x7b\"other\":1\x7d" = [] ∧
    pageTables "null" = [] ∧
    pageTables "\x7b\"tables\":0\x7d" = [] ∧
    pageTables "\x7b\"tables\":[]\x7d" = [] := by
  refine ⟨?_, ?_, ?_, ?_, ?_⟩
  · exact tableAssembly.1 "not json" rfl
  · exact tableAssembly.2.2.1 "\x7b\"other\":1\x7d"
      (JsonValue.obj [("other", JsonValue.num "1")]) rfl rfl
  · exact tableAssembly.2.1 "null" rfl
  · exact tableAssembly.2.2.2.1 "\x7b\"tables\":0\x7d"
      (JsonValue.obj [("tables", JsonValue.num "0")]) (JsonValue.num "0") rfl rfl rfl
  · exact tableAssembly.2.2.2.2.1 "\x7b\"tables\":[]\x7d"
      (JsonValue.obj [("tables", JsonValue.arr [])]) [] rfl rfl

theorem isOkE_exists {e : Except String String} (h : isOkE e = true) :
    ∃ r, e = Except.ok r := by
  cases e with
  | ok r => exact ⟨r, rfl⟩
  | error m => simp [isOkE] at h

theorem loopAux_ok (infer : Nat → Page → Except String String) (N : Nat) :
    ∀ (start : Nat) (ps : List Page),
      (∀ (k : Nat) (hk : k < ps.length), isOkE (infer (start + k) (ps.get ⟨k, hk⟩)) = true) →
      loopAux infer N start ps =
        ⟨List.range' start ps.length,
         (List.range' start ps.length).map (fun j => 5 + 85 * j / N),
         Except.ok (mapWithIndex (fun j p => getOk (infer j p)) start ps)⟩ := by
  intro start ps
  induction ps generalizing start with
  | nil =>
    intro h
    simp [loopAux, mapWithIndex, List.range']
  | cons p tl ih =>
    intro h
    have h0 : isOkE (infer start p) = true := by
      have := h 0 (by simp)
      simpa using this
    obtain ⟨r, hr⟩ := isOkE_exists h0
    have htl := ih (start + 1) ?_
    · simp only [loopAux, hr, htl, List.length_cons, List.range'_succ, List.map_cons,
        mapWithIndex, Except.map, getOk]
    · intro k hk
      have := h (k + 1) (by simpa using Nat.succ_lt_succ hk)
      simpa [Nat.add_assoc, Nat.add_comm 1 k] using this

theorem loopAux_fail (infer : Nat → Page → Except String String) (N : Nat) :
    ∀ (start f : Nat) (ps : List Page) (hf : f < ps.length) (m : String),
      (∀ (k : Nat) (hk : k < f),
        isOkE (infer (start + k) (ps.get ⟨k, Nat.lt_trans hk hf⟩)) = true) →
      infer (start + f) (ps.get ⟨f, hf⟩) = Except.error m →
      loopAux infer N start ps =
        ⟨List.range' start (f + 1),
         (List.range' start (f + 1)).map (fun j => 5 + 85 * j / N),
         Except.error m⟩ := by
  intro start f ps
  induction ps generalizing start f with
  | nil =>
    intro hf
    simp at hf
  | cons p tl ih =>
    intro hf m hok hfail
    cases f with
    | zero =>
      have : infer start p = Except.error m := by simpa using hfail
      simp [loopAux, this, List.range'_one]
    | succ g =>
      have h0 : isOkE (infer start p) = true := by
        have := hok 0 (Nat.succ_pos g)
        simpa using this
      obtain ⟨r, hr⟩ := isOkE_exists h0
      have hg : g < tl.length := by simpa using Nat.lt_of_succ_lt_succ hf
      have htl := ih (start + 1) g hg m ?_ ?_
      · simp only [loopAux, hr, htl, List.range'_succ, List.map_cons, Except.map]
      · intro k hk
        have := hok (k + 1) (Nat.succ_lt_succ hk)
        simpa [Nat.add_assoc, Nat.add_comm 1 k] using this
      · have := hfail
        simpa [Nat.add_assoc, Nat.add_comm 1 g] using this

theorem mapWithIndex_ofFn (g : Nat → Page → String) :
    ∀ (start : Nat) (ps : List Page),
      mapWithIndex g start ps =
        List.ofFn (fun j : Fin ps.length => g (start + j.val) (ps.get j)) := by
  intro start ps
  induction ps generalizing start with
  | nil => simp [mapWithIndex]
  | cons p tl ih =>
    have hsucc :
        (List.ofFn fun j : Fin (p :: tl).length => g (start + j.val) ((p :: tl).get j)) =
          g start p :: List.ofFn fun j : Fin tl.length => g (start + 1 + j.val) (tl.get j) := by
      rw [List.ofFn_succ]
      congr 1
      apply congrArg
      funext j
      have h2 : start + (j.val + 1) = start + 1 + j.val := by omega
      simp [Fin.val_succ, h2]
    rw [mapWithIndex, ih (start + 1), hsucc]

theorem pages_not_isEmpty {pages : List Page} (h : pages ≠ []) :
    pages.isEmpty = false := by
  cases pages with
  | nil => exact absurd rfl h
  | cons p tl => rfl

/-- Claim C1: if the inference call for page `i` fails (all earlier pages
succeeding), then the pipeline calls inference exactly for pages `0..i` and
none after `i`, produces no conversion result, triggers no download (no
Output Emitter runs), and surfaces the triggering error's (nonempty) message
as the run's terminal error status. -/
theorem conversionFailFast (infer : Nat → Page → Except String String)
    (target : ConversionTarget) (pages : List Page) (i : Nat) (m : String)
    (hi : i < pages.length)
    (hfail : infer i (pages.get ⟨i, hi⟩) = Except.error m)
    (hok : ∀ j : Fin pages.length, j.val < i → isOkE (infer j.val (pages.get j)) = true)
    (hm : m ≠ "") :
    (startConversion infer target pages).calls = List.range (i + 1) ∧
    (startConversion infer target pages).result = none ∧
    (startConversion infer target pages).downloaded = false ∧
    (startConversion infer target pages).errMsg = some m := by
  have hne : pages ≠ [] := by
    intro h
    rw [h] at hi
    simp at hi
  have hloop := loopAux_fail infer pages.length 0 i pages hi m ?_ ?_
  · have htrace : startConversion infer target pages =
        ⟨List.range' 0 (i + 1),
         5 :: (List.range' 0 (i + 1)).map (fun j => 5 + 85 * j / pages.length) ++ [0],
         none, none, false, some (if m = "" then defaultErrMsg else m)⟩ := by
      simp only [startConversion, pages_not_isEmpty hne, Bool.false_eq_true, if_false, hloop]
    rw [htrace]
    refine ⟨?_, rfl, rfl, ?_⟩
    · show List.range' 0 (i + 1) = List.range (i + 1)
      rw [List.range_eq_range']
    · show some (if m = "" then defaultErrMsg else m) = some m
      rw [if_neg hm]
  · intro k hk
    have := hok ⟨k, Nat.lt_trans hk hi⟩ hk
    simpa using this
  · simpa using hfail

/-- Claim C1 witness: with three pages and an inference oracle failing on
page index 1 with message `boom`, only pages 0 and 1 are dispatched, there
is no result and no download, and `boom` is the terminal error. -/
theorem conversionFailFastWitness :
    (startConversion (fun i _ => if i = 1 then Except.error "boom" else Except.ok "r")
        ConversionTarget.WORD [⟨1, "a"⟩, ⟨2, "b"⟩, ⟨3, "c"⟩]).calls = List.range 2 ∧
    (startConversion (fun i _ => if i = 1 then Except.error "boom" else Except.ok "r")
        ConversionTarget.WORD [⟨1, "a"⟩, ⟨2, "b"⟩, ⟨3, "c"⟩]).result = none ∧
    (startConversion (fun i _ => if i = 1 then Except.error "boom" else Except.ok "r")
        ConversionTarget.WORD [⟨1, "a"⟩, ⟨2, "b"⟩, ⟨3, "c"⟩]).downloaded = false ∧
    (startConversion (fun i _ => if i = 1 then Except.error "boom" else Except.ok "r")
        ConversionTarget.WORD [⟨1, "a"⟩, ⟨2, "b"⟩, ⟨3, "c"⟩]).errMsg = some "boom" :=
  conversionFailFast (fun i _ => if i = 1 then Except.error "boom" else Except.ok "r")
    ConversionTarget.WORD [⟨1, "a"⟩, ⟨2, "b"⟩, ⟨3, "c"⟩] 1 "boom"
    (by decide) (by rfl) (by decide) (by decide)

/-- Claim C2: on a run over `N ≥ 1` pages in which every inference call
succeeds, the pipeline calls the inference client exactly `N` times, one
call per page in index order (the sequential fold performs each call before
the next), the accumulated page-result sequence lists each page's result in
page order, the conversion result is the target's assembly of that sequence
(so its element order matches page order), the download runs and no error is
reported. -/
theorem conversionSequential (infer : Nat → Page → Except String String)
    (target : ConversionTarget) (pages : List Page)
    (hne : pages ≠ []) (r : Fin pages.length → String)
    (hok : ∀ j : Fin pages.length, infer j.val (pages.get j) = Except.ok (r j)) :
    (startConversion infer target pages).calls = List.range pages.length ∧
    (startConversion infer target pages).pageResults = some (List.ofFn r) ∧
    (startConversion infer target pages).result = some (assemble target (List.ofFn r)) ∧
    (startConversion infer target pages).downloaded = true ∧
    (startConversion infer target pages).errMsg = none := by
  have hloop := loopAux_ok infer pages.length 0 pages ?_
  · have hres : mapWithIndex (fun j p => getOk (infer j p)) 0 pages = List.ofFn r := by
      rw [mapWithIndex_ofFn]
      apply congrArg
      funext j
      rw [Nat.zero_add, hok j]
      rfl
    have htrace : startConversion infer target pages =
        ⟨List.range' 0 pages.length,
         5 :: (List.range' 0 pages.length).map (fun j => 5 + 85 * j / pages.length) ++
           [95, 100],
         some (List.ofFn r), some (assemble target (List.ofFn r)), true, none⟩ := by
      simp only [startConversion, pages_not_isEmpty hne, Bool.false_eq_true, if_false,
        hloop, hres]
    rw [htrace]
    refine ⟨?_, rfl, rfl, rfl, rfl⟩
    show List.range' 0 pages.length = List.range pages.length
    rw [List.range_eq_range']
  · intro k hk
    have := hok ⟨k, hk⟩
    have hOk : isOkE (infer k (pages.get ⟨k, hk⟩)) = true := by
      rw [this]
      rfl
    simpa using hOk

/-- Claim C2 witness: a two-page run with a succeeding oracle makes exactly
the calls `[0, 1]` in order, accumulates the page results in page order, and
assembles, downloads and finishes without error. -/
theorem conversionSequentialWitness :
    (startConversion (fun i _ => Except.ok (if i = 0 then "r0" else "r1"))
        ConversionTarget.WORD [⟨1, "a"⟩, ⟨2, "b"⟩]).calls = List.range 2 ∧
    (startConversion (fun i _ => Except.ok (if i = 0 then "r0" else "r1"))
        ConversionTarget.WORD [⟨1, "a"⟩, ⟨2, "b"⟩]).pageResults =
      some (List.ofFn fun j : Fin 2 => if j.val = 0 then "r0" else "r1") ∧
    (startConversion (fun i _ => Except.ok (if i = 0 then "r0" else "r1"))
        ConversionTarget.WORD [⟨1, "a"⟩, ⟨2, "b"⟩]).result =
      some (assemble ConversionTarget.WORD
        (List.ofFn fun j : Fin 2 => if j.val = 0 then "r0" else "r1")) ∧
    (startConversion (fun i _ => Except.ok (if i = 0 then "r0" else "r1"))
        ConversionTarget.WORD [⟨1, "a"⟩, ⟨2, "b"⟩]).downloaded = true ∧
    (startConversion (fun i _ => Except.ok (if i = 0 then "r0" else "r1"))
        ConversionTarget.WORD [⟨1, "a"⟩, ⟨2, "b"⟩]).errMsg = none :=
  conversionSequential (fun i _ => Except.ok (if i = 0 then "r0" else "r1"))
    ConversionTarget.WORD [⟨1, "a"⟩, ⟨2, "b"⟩] (by decide)
    (fun j : Fin 2 => if j.val = 0 then "r0" else "r1")
    (by intro j; fin_cases j <;> rfl)

theorem progTerm_le_90 (N i : Nat) (hN : 0 < N) (hi : i < N) :
    5 + 85 * i / N ≤ 90 := by
  have h1 : 85 * i ≤ 85 * N := Nat.mul_le_mul_left 85 (Nat.le_of_lt hi)
  have h2 : 85 * i / N ≤ 85 * N / N := Nat.div_le_div_right h1
  rw [Nat.mul_div_cancel 85 hN] at h2
  omega

theorem chain'_le_map_range (f : Nat → Nat) (hf : ∀ i, f i ≤ f (i + 1)) (n : Nat) :
    List.Chain' (fun a b => a ≤ b) ((List.range n).map f) := by
  rw [List.chain'_iff_get]
  intro i h
  simp only [List.length_map, List.length_range] at h
  simp only [List.get_map, List.get_range]
  exact hf i

/-- Claim C7: on a successful run over `N ≥ 1` pages, the reported progress
sequence is exactly `5` (initialization), then `5 + (85 * i) / N` before
dispatching the `i`-th page (0-indexed; the floor of `(i / N) * 85` in exact
arithmetic), then `95` before final assembly, then `100`; and this whole
sequence is monotonically non-decreasing. -/
theorem conversionProgress (infer : Nat → Page → Except String String)
    (target : ConversionTarget) (pages : List Page)
    (hne : pages ≠ [])
    (hok : ∀ j : Fin pages.length, isOkE (infer j.val (pages.get j)) = true) :
    (startConversion infer target pages).reports =
      5 :: (List.range pages.length).map (fun i => 5 + 85 * i / pages.length) ++
        [95, 100] ∧
    List.Chain' (fun a b => a ≤ b) (startConversion infer target pages).reports := by
  have hN : 0 < pages.length := by
    cases pages with
    | nil => exact absurd rfl hne
    | cons p tl => simp
  have hloop := loopAux_ok infer pages.length 0 pages ?_
  · have hreports : (startConversion infer target pages).reports =
        5 :: (List.range pages.length).map (fun i => 5 + 85 * i / pages.length) ++
          [95, 100] := by
      simp only [startConversion, pages_not_isEmpty hne, Bool.false_eq_true, if_false,
        hloop, List.range_eq_range']
    refine ⟨hreports, ?_⟩
    rw [hreports]
    set N := pages.length with hNdef
    set f : Nat → Nat := fun i => 5 + 85 * i / N with hfdef
    have hf : ∀ i, f i ≤ f (i + 1) := by
      intro i
      have : 85 * i ≤ 85 * (i + 1) := Nat.mul_le_mul_left 85 (by omega)
      have := Nat.div_le_div_right (c := N) this
      simp only [hfdef]
      omega
    have hchainL : List.Chain' (fun a b => a ≤ b) ((List.range N).map f) :=
      chain'_le_map_range f hf N
    have hchainR : List.Chain' (fun a b => a ≤ b) [95, 100] := by
      simp [List.chain'_cons]
    have hmemL : ∀ x ∈ (List.range N).map f, 5 ≤ x ∧ x ≤ 90 := by
      intro x hx
      obtain ⟨i, hi, hix⟩ := List.mem_map.mp hx
      rw [List.mem_range] at hi
      constructor
      · rw [← hix]; simp [hfdef]
      · rw [← hix]
        exact progTerm_le_90 N i hN hi
    rw [List.chain'_append]
    refine ⟨?_, hchainR, ?_⟩
    · rw [List.chain'_cons']
      refine ⟨?_, hchainL⟩
      intro y hy
      have hymem : y ∈ (List.range N).map f := List.mem_of_mem_head? hy
      exact (hmemL y hymem).1
    · intro x hx y hy
      have hxmem : x ∈ 5 :: (List.range N).map f := by
        obtain ⟨hLne, hxeq⟩ := List.mem_getLast?_eq_getLast hx
        rw [hxeq]
        exact List.getLast_mem hLne
      have hy95 : 95 = y := by simpa using hy
      have hx90 : x ≤ 90 := by
        rw [List.mem_cons] at hxmem
        cases hxmem with
        | inl h => omega
        | inr h => exact (hmemL x h).2
      omega
  · intro k hk
    have := hok ⟨k, hk⟩
    simpa using this

/-- Claim C7 witness: a successful two-page run reports exactly
`[5, 5, 47, 95, 100]`, a non-decreasing sequence ending at 100. -/
theorem conversionProgressWitness :
    (startConversion (fun _ _ => Except.ok "r") ConversionTarget.WORD
        [⟨1, "a"⟩, ⟨2, "b"⟩]).reports =
      5 :: (List.range 2).map (fun i => 5 + 85 * i / 2) ++ [95, 100] ∧
    List.Chain' (fun a b => a ≤ b)
      (startConversion (fun _ _ => Except.ok "r") ConversionTarget.WORD
        [⟨1, "a"⟩, ⟨2, "b"⟩]).reports :=
  conversionProgress (fun _ _ => Except.ok "r") ConversionTarget.WORD
    [⟨1, "a"⟩, ⟨2, "b"⟩] (by decide) (by decide)

/-- Claim C8 counterexample: on an empty page sequence `startConversion`
returns early without reporting ANY error — the trace's terminal error is
`none`, no status is set at all — contrary to the claimed `EmptyInputError`
report.  (The true part of the claim holds: no inference call is made.) -/
theorem emptyInputCex :
    (startConversion (fun _ _ => Except.ok "") ConversionTarget.WORD []).errMsg = none ∧
    (startConversion (fun _ _ => Except.ok "") ConversionTarget.WORD []).calls = [] := by
  constructor <;> rfl

/-- Claim C8 amended: if the page sequence is empty, `startConversion`
returns immediately before any inference call: the whole trace is empty —
no inference call, no progress report, no page results, no conversion
result, no download, and no error reported. -/
theorem emptyInputNoOp (infer : Nat → Page → Except String String)
    (target : ConversionTarget) :
    startConversion infer target [] =
      ⟨[], [], none, none, false, none⟩ := by
  rfl
